import Mathlib

/-!
Verification development for the Glacier liquid-glass renderer.

The definitions below are a shallow embedding of the rendering core of the
repository: the GLSL fragment shaders embedded in
`demo/src/components/GlobalGlassRenderer.tsx` and
`demo/src/components/LiquidGlass.tsx` (shader math over `ℝ`), and the
region registry kept by `GlobalGlassRenderer` (a JavaScript `Map` modelled
as an insertion-ordered association list over `ℚ`-valued rectangles).
-/

namespace Glacier

/-! ## GLSL scalar primitives (over `ℝ`) -/

noncomputable section ShaderMath

/-- GLSL `clamp(x, lo, hi) = min(max(x, lo), hi)`. -/
def clampR (x lo hi : ℝ) : ℝ := min (max x lo) hi

/-- GLSL `mix(a, b, t) = a*(1-t) + b*t`. -/
def mixR (a b t : ℝ) : ℝ := a * (1 - t) + b * t

/-- GLSL `smoothstep(e0, e1, x)`: Hermite interpolation of the clamped
linear ramp. -/
def smoothstepR (e0 e1 x : ℝ) : ℝ :=
  let t := clampR ((x - e0) / (e1 - e0)) 0 1
  t * t * (3 - 2 * t)

/-- GLSL `fract(x) = x - floor(x)`. -/
def fractR (x : ℝ) : ℝ := x - (⌊x⌋ : ℤ)

/-! ## GLSL vectors (over `ℝ`) -/

/-- A `vec2`. -/
structure Vec2 where
  x : ℝ
  y : ℝ

/-- A `vec3`. -/
structure Vec3 where
  x : ℝ
  y : ℝ
  z : ℝ

/-- A `vec4`. -/
structure Vec4 where
  x : ℝ
  y : ℝ
  z : ℝ
  w : ℝ

/-- Componentwise `vec3` addition. -/
def v3add (a b : Vec3) : Vec3 := ⟨a.x + b.x, a.y + b.y, a.z + b.z⟩

/-- `vec3 * float` (scalar scaling). -/
def v3scale (t : ℝ) (a : Vec3) : Vec3 := ⟨t * a.x, t * a.y, t * a.z⟩

/-- The `.rgb` swizzle of a `vec4`. -/
def Vec4.rgb (c : Vec4) : Vec3 := ⟨c.x, c.y, c.z⟩

/-! ## Fragment-shader main-loop compositing
(`GlobalGlassRenderer.tsx`, shader `main`, lines 251-267) -/

/-- One iteration of the compositing loop:
`alpha = glassColor.a * (1.0 - totalAlpha); result.rgb += glassColor.rgb * alpha;
totalAlpha += alpha;`.  The accumulator is `(totalAlpha, result.rgb)`. -/
def compositeStep (acc : ℝ × Vec3) (g : Vec4) : ℝ × Vec3 :=
  let a := g.w * (1 - acc.1)
  (acc.1 + a, v3add acc.2 (v3scale a g.rgb))

/-- The main-loop fold over the glass colors of the processed regions, in
registration order, starting from `result = vec4(0)` and `totalAlpha = 0`. -/
def compositeList (gs : List Vec4) : ℝ × Vec3 :=
  gs.foldl compositeStep (0, ⟨0, 0, 0⟩)

/-! ## Depth proxy and Fresnel rim terms -/

/-- `renderGlass` (GlobalGlassRenderer, lines 168-170): `depth = max(-sd, 0.0);
float maxDepth = min(size.x, size.y) * 0.5; normalizedDepth =
clamp(depth / maxDepth, 0.0, 1.0)`.  `size` is the half-extent vector. -/
def normalizedDepthGlobal (sd : ℝ) (size : Vec2) : ℝ :=
  clampR (max (-sd) 0 / (min size.x size.y * 0.5)) 0 1

/-- `main` (LiquidGlass, lines 117-119), inside branch: `depth = -sd;
normalizedDepth = clamp(depth / u_refThickness, 0.0, 1.0)`. -/
def normalizedDepthLiquid (sd refThickness : ℝ) : ℝ :=
  clampR (-sd / refThickness) 0 1

/-- Modelled from the spec: `depth = clamp(-sd / referenceThickness, 0, 1)`
where `referenceThickness` is the caller-supplied thickness parameter. -/
def normalizedDepthSpec (sd referenceThickness : ℝ) : ℝ :=
  clampR (-sd / referenceThickness) 0 1

/-- `renderGlass` (GlobalGlassRenderer, lines 210-211): `fresnelEdge =
pow(1.0 - normalizedDepth, 3.5); fresnelIntensity = fresnelEdge *
u_fresnelFactor * intensity * 0.15`. -/
def fresnelIntensityGlobal (nd fresnelFactor intensity : ℝ) : ℝ :=
  (1 - nd) ^ (3.5 : ℝ) * fresnelFactor * intensity * 0.15

/-- `main` (LiquidGlass, lines 147-148): `fresnelFactor = pow(1.0 -
normalizedDepth, 5.0); fresnelFactor *= u_fresnelFactor`. -/
def fresnelFactorLiquid (nd fresnelFactor : ℝ) : ℝ :=
  (1 - nd) ^ (5.0 : ℝ) * fresnelFactor

/-- Modelled from the spec: the Schlick-style approximation
`F0 + (1-F0) * pow(1-depth, 5)`. -/
def fresnelSchlick (F0 depth : ℝ) : ℝ :=
  F0 + (1 - F0) * (1 - depth) ^ (5 : ℕ)

/-- LiquidGlass line 150: `fragColor = mix(refractedColor, vec4(1.0),
fresnelFactor * 0.4)`, per channel — the blend toward white. -/
def fresnelMixChannel (c fres : ℝ) : ℝ := mixR c 1 (fres * 0.4)

/-! ## Superellipse SDF (`LiquidGlass.tsx`, shader lines 49-54) -/

/-- `sdSuperellipse(p, size, n)`:
`p = p / size; ps = abs(p); gm = pow(ps.x, n) + pow(ps.y, n);
return (pow(gm, 1.0/n) - 1.0) * min(size.x, size.y)`. -/
def sdSuperellipse (p size : Vec2) (n : ℝ) : ℝ :=
  ((|p.x / size.x| ^ n + |p.y / size.y| ^ n) ^ (1 / n) - 1) * min size.x size.y

/-! ## Geometric interiors (for the shape sign invariant)

These are independent geometric definitions of the shapes the SDFs claim to
describe, to be compared with the signs of the code's distance functions. -/

/-- Geometric strict interior of the rounded rectangle with half-extents
`size` and corner radius `radius`: points at Euclidean distance `< radius`
from the core rectangle `[-(size - radius), size - radius]` (the Minkowski
sum of the core box with an open disc of radius `radius`). -/
def insideRoundedRect (p size : Vec2) (radius : ℝ) : Prop :=
  ∃ qx qy : ℝ, |qx| ≤ size.x - radius ∧ |qy| ≤ size.y - radius ∧
    Real.sqrt ((p.x - qx) ^ 2 + (p.y - qy) ^ 2) < radius

/-- Geometric strict exterior of the rounded rectangle: every point of the
core rectangle is at Euclidean distance `> radius`. -/
def outsideRoundedRect (p size : Vec2) (radius : ℝ) : Prop :=
  ∀ qx qy : ℝ, |qx| ≤ size.x - radius → |qy| ≤ size.y - radius →
    radius < Real.sqrt ((p.x - qx) ^ 2 + (p.y - qy) ^ 2)

/-- Geometric strict interior of the superellipse
`|x/a|^n + |y/b|^n < 1`. -/
def insideSuperellipse (p size : Vec2) (n : ℝ) : Prop :=
  |p.x / size.x| ^ n + |p.y / size.y| ^ n < 1

/-- Geometric strict exterior of the superellipse. -/
def outsideSuperellipse (p size : Vec2) (n : ℝ) : Prop :=
  1 < |p.x / size.x| ^ n + |p.y / size.y| ^ n

/-! ## Vector helpers used by the shader bodies -/

/-- Componentwise `vec2` addition. -/
def v2add (a b : Vec2) : Vec2 := ⟨a.x + b.x, a.y + b.y⟩

/-- Componentwise `vec2` subtraction. -/
def v2sub (a b : Vec2) : Vec2 := ⟨a.x - b.x, a.y - b.y⟩

/-- `float * vec2`. -/
def v2scale (t : ℝ) (a : Vec2) : Vec2 := ⟨t * a.x, t * a.y⟩

/-- GLSL `dot` for `vec2`. -/
def dotV2 (a b : Vec2) : ℝ := a.x * b.x + a.y * b.y

/-- GLSL `length` for `vec2`. -/
def v2length (a : Vec2) : ℝ := Real.sqrt (a.x ^ 2 + a.y ^ 2)

/-- GLSL `normalize` for `vec2` (division by the Euclidean length;
`x / 0 = 0` stands in for the unspecified GLSL result at zero length). -/
def normalizeV2 (a : Vec2) : Vec2 := ⟨a.x / v2length a, a.y / v2length a⟩

/-- Componentwise clamp of a `vec2` against scalar bounds. -/
def clampV2 (a : Vec2) (lo hi : ℝ) : Vec2 := ⟨clampR a.x lo hi, clampR a.y lo hi⟩

/-- Componentwise `vec4` addition. -/
def v4add (a b : Vec4) : Vec4 := ⟨a.x + b.x, a.y + b.y, a.z + b.z, a.w + b.w⟩

/-- `float * vec4`. -/
def v4scale (t : ℝ) (a : Vec4) : Vec4 := ⟨t * a.x, t * a.y, t * a.z, t * a.w⟩

/-- `vec4 / float`. -/
def v4divScalar (a : Vec4) (t : ℝ) : Vec4 := ⟨a.x / t, a.y / t, a.z / t, a.w / t⟩

/-- Componentwise `mix` for `vec3`. -/
def mixV3 (a b : Vec3) (t : ℝ) : Vec3 := ⟨mixR a.x b.x t, mixR a.y b.y t, mixR a.z b.z t⟩

/-- GLSL two-argument `atan(y, x)` (the `atan2` convention). -/
def atan2R (y x : ℝ) : ℝ :=
  if 0 < x then Real.arctan (y / x)
  else if x < 0 then
    (if 0 ≤ y then Real.arctan (y / x) + Real.pi
     else Real.arctan (y / x) - Real.pi)
  else
    (if 0 < y then Real.pi / 2 else if y < 0 then -(Real.pi / 2) else 0)

/-! ## Noise functions (`GlobalGlassRenderer.tsx`, shader lines 79-105) -/

/-- `hash(p) = fract(sin(dot(p, vec2(127.1, 311.7))) * 43758.5453)`. -/
def hash (p : Vec2) : ℝ :=
  fractR (Real.sin (dotV2 p ⟨127.1, 311.7⟩) * 43758.5453)

/-- `noise(p)`: value noise from the four corner hashes, blended with the
smoothed fractional part `f*f*(3-2f)`. -/
def noise (p : Vec2) : ℝ :=
  let i : Vec2 := ⟨((⌊p.x⌋ : ℤ) : ℝ), ((⌊p.y⌋ : ℤ) : ℝ)⟩
  let fx := fractR p.x
  let fy := fractR p.y
  let gx := fx * fx * (3 - 2 * fx)
  let gy := fy * fy * (3 - 2 * fy)
  let a := hash i
  let b := hash (v2add i ⟨1, 0⟩)
  let c := hash (v2add i ⟨0, 1⟩)
  let d := hash (v2add i ⟨1, 1⟩)
  mixR (mixR a b gx) (mixR c d gx) gy

/-- `fbm(p)`: the three-iteration loop
`value += amplitude * noise(p); p *= 2.0; amplitude *= 0.5` unrolled. -/
def fbm (p : Vec2) : ℝ :=
  0.5 * noise p + 0.25 * noise (v2scale 2 p) + 0.125 * noise (v2scale 4 p)

/-! ## Rounded-rect SDF with liquid wobble (shader lines 108-127) -/

/-- `sdRoundedRect(p, size, radius, wobble, rectIdx)`; the shader also reads
the `u_time` uniform, passed here as `time`. -/
def sdRoundedRect (time : ℝ) (p size : Vec2) (radius wobble rectIdx : ℝ) : ℝ :=
  let angle := atan2R p.y p.x
  let wobbleAmount := wobble * 3
  let wobbleOffset :=
    Real.sin (angle * 4 + time * 1.5 + rectIdx) * wobbleAmount
    + Real.sin (angle * 6 - time * 2) * wobbleAmount * 0.4
    + fbm ⟨angle * 1.5, time * 0.3 + rectIdx * 0.5⟩ * wobbleAmount * 0.5
  let q : Vec2 := ⟨|p.x| - size.x + radius + wobbleOffset,
                   |p.y| - size.y + radius + wobbleOffset⟩
  min (max q.x q.y) 0 + v2length ⟨max q.x 0, max q.y 0⟩ - radius

/-- `sdRoundedRect` with the wobble amplitude set to zero: the classic
rounded-rectangle signed distance
`q = abs(p) - size + radius; min(max(q.x,q.y),0) + length(max(q,0)) - radius`. -/
def sdRoundedRectPure (p size : Vec2) (radius : ℝ) : ℝ :=
  min (max (|p.x| - size.x + radius) (|p.y| - size.y + radius)) 0
  + v2length ⟨max (|p.x| - size.x + radius) 0, max (|p.y| - size.y + radius) 0⟩
  - radius

/-- `getNormal`: finite differences of the SDF with `eps = 0.5`. -/
def getNormal (time : ℝ) (p size : Vec2) (radius wobble rectIdx : ℝ) : Vec2 :=
  let eps : ℝ := 0.5
  let d := sdRoundedRect time p size radius wobble rectIdx
  let dx := sdRoundedRect time (v2add p ⟨eps, 0⟩) size radius wobble rectIdx - d
  let dy := sdRoundedRect time (v2add p ⟨0, eps⟩) size radius wobble rectIdx - d
  normalizeV2 ⟨dx, dy⟩

/-! ## Blur sampling (shader lines 130-145) -/

/-- The 5×5 tap offsets of the blur loop, `x` outer from -2 to 2, `y` inner. -/
def blurTaps : List Vec2 :=
  ((List.range 5).map (fun (a : ℕ) => (a : ℝ) - 2)).flatMap (fun x =>
    ((List.range 5).map (fun (b : ℕ) => (b : ℝ) - 2)).map (fun y => Vec2.mk x y))

/-- `blurredSample(tex, uv, radius)`: weighted average of 25 taps, each
weighted `max(1 - length(vec2(x,y))/3.5, 0)`, sampling coordinates clamped
to `[0,1]`. -/
def blurredSample (tex : Vec2 → Vec4) (uv : Vec2) (radius : ℝ)
    (resolution : Vec2) : Vec4 :=
  let acc := blurTaps.foldl
    (fun (acc : Vec4 × ℝ) t =>
      let offset : Vec2 := ⟨t.x * radius / resolution.x, t.y * radius / resolution.y⟩
      let weight := max (1 - v2length t / 3.5) 0
      (v4add acc.1 (v4scale weight (tex (clampV2 (v2add uv offset) 0 1))),
       acc.2 + weight))
    (⟨0, 0, 0, 0⟩, 0)
  v4divScalar acc.1 acc.2

/-! ## The per-pixel glass evaluation (`renderGlass`, shader lines 148-243) -/

/-- The global uniforms read by `renderGlass` and `main`. -/
structure Uniforms where
  resolution : Vec2
  time : ℝ
  refFactor : ℝ
  refDispersion : ℝ
  fresnelFactor : ℝ
  glareFactor : ℝ
  glareAngle : ℝ
  blur : ℝ
  tint : Vec4
  liquidWobble : ℝ
  thickness : ℝ

/-- The signed distance `renderGlass` computes for a region slot:
`p = pixelPos - rectCenter`, `size = rect.zw * 0.5`,
`radius = min(size.x, size.y) * roundness * 0.5`,
`wobble = u_liquidWobble * 0.3`, then `sdRoundedRect`. -/
def regionSd (u : Uniforms) (pixelPos : Vec2) (rect params : Vec4)
    (rectIdx : ℝ) : ℝ :=
  let rectCenter : Vec2 := ⟨rect.x + rect.z * 0.5, rect.y + rect.w * 0.5⟩
  let p := v2sub pixelPos rectCenter
  let size : Vec2 := ⟨rect.z * 0.5, rect.w * 0.5⟩
  let radius := min size.x size.y * params.x * 0.5
  let wobble := u.liquidWobble * 0.3
  sdRoundedRect u.time p size radius wobble rectIdx

/-- The anti-aliasing alpha at the shape edge:
`aa = smoothstep(1.5, -1.0, sd)` (renderGlass line 240). -/
def aaAlpha (sd : ℝ) : ℝ := smoothstepR 1.5 (-1) sd

/-- `renderGlass(pixelPos, rect, params, rectIdx, bgColor)` — the glass
effect for a single rectangle.  `tex` is the bound `u_background` sampler.
(The `bgColor` argument is passed by `main` but never read, as in the
source.) -/
def renderGlass (u : Uniforms) (tex : Vec2 → Vec4) (pixelPos : Vec2)
    (rect params : Vec4) (rectIdx : ℝ) (bgColor : Vec4) : Vec4 :=
  let rectCenter : Vec2 := ⟨rect.x + rect.z * 0.5, rect.y + rect.w * 0.5⟩
  let p := v2sub pixelPos rectCenter
  let size : Vec2 := ⟨rect.z * 0.5, rect.w * 0.5⟩
  let intensity := params.y
  let radius := min size.x size.y * params.x * 0.5
  let wobble := u.liquidWobble * 0.3
  let sd := regionSd u pixelPos rect params rectIdx
  if 2 < sd then ⟨0, 0, 0, 0⟩
  else
    let normalizedDepth := normalizedDepthGlobal sd size
    let normal := getNormal u.time p size radius wobble rectIdx
    let edgeFactor := (1 - normalizedDepth) ^ (1.2 : ℝ)
    let refractionStrength := (u.refFactor - 1) * 0.08 * intensity
    let wobbleRef := Real.sin (u.time * 1.5 + v2length p * 0.03 + rectIdx)
      * wobble * 0.01
    let refractionOffset := v2scale (edgeFactor * (refractionStrength + wobbleRef)) normal
    let dispersionOffset := u.refDispersion * 0.002 * edgeFactor * intensity
    let uv : Vec2 := ⟨pixelPos.x / u.resolution.x, pixelPos.y / u.resolution.y⟩
    let uvR := clampV2 (v2sub uv (v2scale (1 - dispersionOffset) refractionOffset)) 0 1
    let uvG := clampV2 (v2sub uv refractionOffset) 0 1
    let uvB := clampV2 (v2sub uv (v2scale (1 + dispersionOffset) refractionOffset)) 0 1
    let blurAmount := u.blur * 0.3 * intensity
    let colorR := blurredSample tex uvR blurAmount u.resolution
    let colorG := blurredSample tex uvG blurAmount u.resolution
    let colorB := blurredSample tex uvB blurAmount u.resolution
    let causticNoise := fbm (v2add (v2scale 0.015 p) ⟨u.time * 0.2, u.time * 0.2⟩)
    let caustics := causticNoise ^ (2.5 : ℝ) * normalizedDepth * 0.08 * intensity
    let refractedColor : Vec3 :=
      v3add ⟨colorR.x, colorG.y, colorB.z⟩ ⟨caustics * 0.7, caustics * 0.8, caustics⟩
    let fresnelIntensity := fresnelIntensityGlobal normalizedDepth u.fresnelFactor intensity
    let fresnelHighlight := v3scale fresnelIntensity ⟨1, 1, 0.98⟩
    let glareAngle := atan2R normal.y normal.x * 2 + u.glareAngle + u.time * 0.15
    let glareIntensity :=
      ((0.5 + Real.sin glareAngle * 0.5) * edgeFactor * u.glareFactor * intensity) ^ (2.8 : ℝ)
    let glareColor := v3scale (glareIntensity * 0.2) ⟨1, 0.98, 0.95⟩
    let tinted := mixV3 refractedColor u.tint.rgb (u.tint.w * 0.1 * intensity)
    let withHighlights := v3add (v3add tinted fresnelHighlight) glareColor
    let innerShadow := smoothstepR 0 0.1 normalizedDepth
    let shadowed := v3scale (mixR 0.94 1 innerShadow) withHighlights
    let topHighlight := smoothstepR 0.7 0 ((pixelPos.y - rect.y) / rect.w)
      * (1 - normalizedDepth) * 0.05 * u.fresnelFactor
    let finalColor := v3add shadowed ⟨topHighlight, topHighlight, topHighlight⟩
    ⟨finalColor.x, finalColor.y, finalColor.z, aaAlpha sd⟩

/-! ## The fragment `main` (shader lines 245-271) and output blending -/

/-- The glass colors produced by the main loop for the processed slots (the
prefix below `u_rectCount`), skipping slots with `params.z < 0.5`
(`continue`), each evaluated by `renderGlass` with its loop index. -/
def shaderRegionColors (u : Uniforms) (tex : Vec2 → Vec4)
    (slots : List (Vec4 × Vec4)) (pixelPos : Vec2) (bgColor : Vec4) :
    List Vec4 :=
  slots.enum.filterMap (fun ie =>
    if ie.2.2.z < 0.5 then none
    else some (renderGlass u tex pixelPos ie.2.1 ie.2.2 (ie.1 : ℝ) bgColor))

/-- The fragment color: front-to-back accumulation of the region colors,
`fragColor = vec4(result.rgb, totalAlpha)` (premultiplied alpha). -/
def mainFragment (u : Uniforms) (tex : Vec2 → Vec4)
    (slots : List (Vec4 × Vec4)) (pixelPos : Vec2) (bgColor : Vec4) : Vec4 :=
  let res := compositeList (shaderRegionColors u tex slots pixelPos bgColor)
  ⟨res.2.x, res.2.y, res.2.z, res.1⟩

/-- The canvas blend `gl.blendFunc(gl.ONE, gl.ONE_MINUS_SRC_ALPHA)` applied
to the premultiplied fragment over the backdrop content behind the canvas:
`out = src.rgb + dst.rgb * (1 - src.a)`. -/
def blendPresented (src : Vec4) (dst : Vec3) : Vec3 :=
  v3add src.rgb (v3scale (1 - src.w) dst)

/-- Everything the per-pixel optics evaluation reads, bundled: uniforms,
the background sampler, the pixel, the region rectangle and parameters, the
loop index and the (unused) background color argument. -/
structure RenderInput where
  u : Uniforms
  tex : Vec2 → Vec4
  pixelPos : Vec2
  rect : Vec4
  params : Vec4
  rectIdx : ℝ
  bgColor : Vec4

/-- `renderGlass` as a function of the bundled input. -/
def renderGlassAt (i : RenderInput) : Vec4 :=
  renderGlass i.u i.tex i.pixelPos i.rect i.params i.rectIdx i.bgColor

/-- Concrete uniforms (the component's default props, with zero wobble)
for instantiating theorems. -/
def demoUniforms0 : Uniforms :=
  { resolution := ⟨1920, 1080⟩, time := 0, refFactor := 1.4,
    refDispersion := 10, fresnelFactor := 0.5, glareFactor := 0.3,
    glareAngle := 0.8, blur := 4, tint := ⟨0.8, 0.9, 1, 0.15⟩,
    liquidWobble := 0, thickness := 20 }

/-- A concrete solid-color backdrop sampler. -/
def demoTex : Vec2 → Vec4 := fun _ => ⟨0.2, 0.4, 0.6, 1⟩

/-- One enabled 10×10 region slot at the origin with square corners. -/
def demoSlots : List (Vec4 × Vec4) := [(⟨0, 0, 10, 10⟩, ⟨0, 1, 1, 0⟩)]

/-- A concrete render input for instantiating the determinism theorem. -/
def demoInput : RenderInput :=
  { u := { resolution := ⟨1920, 1080⟩, time := 1, refFactor := 1.4,
           refDispersion := 10, fresnelFactor := 0.5, glareFactor := 0.3,
           glareAngle := 0.8, blur := 4, tint := ⟨0.8, 0.9, 1, 0.15⟩,
           liquidWobble := 0.25, thickness := 20 }
    tex := fun _ => ⟨0.2, 0.4, 0.6, 1⟩
    pixelPos := ⟨150, 130⟩
    rect := ⟨100, 100, 200, 150⟩
    params := ⟨0.15, 1, 1, 0⟩
    rectIdx := 0
    bgColor := ⟨0.2, 0.4, 0.6, 1⟩ }

end ShaderMath

/-! ## Region registry (`GlobalGlassRenderer.tsx`)

`rectsRef.current` is a JavaScript `Map<string, GlassRect>`.  A JS `Map`
iterates in key-insertion order, and `set` on an existing key replaces the
value while keeping the key's original position.  We model it as an
association list in insertion order with no duplicate keys.  Rectangle
coordinates are JS numbers; we embed them as `ℚ` (the registry performs no
irrational arithmetic). -/

inductive Intensity where
  | light
  | normal
  | heavy
deriving DecidableEq, Repr

/-- `GlassRect` from `GlobalGlassRenderer.tsx` (lines 11-19). -/
structure GlassRect where
  id : String
  x : ℚ
  y : ℚ
  width : ℚ
  height : ℚ
  roundness : ℚ
  intensity : Intensity
deriving DecidableEq, Repr

/-- The registry: entries keyed by `GlassRect.id`, in insertion order. -/
abbrev Registry := List (String × GlassRect)

/-- The keys of a registry, in order. -/
def regKeys (s : Registry) : List String := s.map Prod.fst

/-- A registry built through the `Map` API never has duplicate keys. -/
def keysNodup (s : Registry) : Prop := (regKeys s).Nodup

instance (s : Registry) : Decidable (keysNodup s) := by
  unfold keysNodup; infer_instance

/-- `Map.get`: value of the first (only) entry with the given key. -/
def lookupG (id : String) : Registry → Option GlassRect
  | [] => none
  | e :: s => if e.1 = id then some e.2 else lookupG id s

/-- `registerGlass(rect)`: `rectsRef.current.set(rect.id, rect)` — JS
`Map.set` replaces the value in place when the key exists, else appends. -/
def registerGlass (r : GlassRect) (s : Registry) : Registry :=
  if ∃ e ∈ s, e.1 = r.id then
    s.map (fun e => if e.1 = r.id then (r.id, r) else e)
  else
    s ++ [(r.id, r)]

/-- `unregisterGlass(id)`: `rectsRef.current.delete(id)`. -/
def unregisterGlass (id : String) (s : Registry) : Registry :=
  s.filter (fun e => e.1 ≠ id)

/-- `Partial<GlassRect>`: every field optional. -/
structure GlassPatch where
  id : Option String := none
  x : Option ℚ := none
  y : Option ℚ := none
  width : Option ℚ := none
  height : Option ℚ := none
  roundness : Option ℚ := none
  intensity : Option Intensity := none
deriving DecidableEq, Repr

/-- The JS spread `{ ...existing, ...updates }`. -/
def mergePatch (e : GlassRect) (p : GlassPatch) : GlassRect :=
  { id := p.id.getD e.id
    x := p.x.getD e.x
    y := p.y.getD e.y
    width := p.width.getD e.width
    height := p.height.getD e.height
    roundness := p.roundness.getD e.roundness
    intensity := p.intensity.getD e.intensity }

/-- `updateGlass(id, updates)`: reads the existing entry; if present,
stores the merged record under the same key; otherwise does nothing. -/
def updateGlass (id : String) (p : GlassPatch) (s : Registry) : Registry :=
  match lookupG id s with
  | none => s
  | some e => s.map (fun en => if en.1 = id then (id, mergePatch e p) else en)

/-- `Array.from(rectsRef.current.values())`: values in insertion order. -/
def regValues (s : Registry) : List GlassRect := s.map Prod.snd

/-! ## Per-frame uniform upload (`render`, lines 512-539) -/

/-- A `vec4` over `ℚ` for the uploaded uniform data. -/
structure Vec4Q where
  x : ℚ
  y : ℚ
  z : ℚ
  w : ℚ
deriving DecidableEq, Repr

/-- `intensityMap = { light: 0.5, normal: 1.0, heavy: 1.5 }`. -/
def intensityValue : Intensity → ℚ
  | .light => 1/2
  | .normal => 1
  | .heavy => 3/2

/-- One uniform slot: the pair `u_rects[i]`, `u_rectParams[i]`. -/
structure SlotData where
  rect : Vec4Q
  params : Vec4Q
deriving DecidableEq, Repr

/-- Slot contents for a present rect: rect scaled by devicePixelRatio and
`u_rectParams = [roundness, intensity, 1.0, 0.0]`. -/
def slotOf (dpr : ℚ) (r : GlassRect) : SlotData :=
  { rect := ⟨r.x * dpr, r.y * dpr, r.width * dpr, r.height * dpr⟩
    params := ⟨r.roundness, intensityValue r.intensity, 1, 0⟩ }

/-- Slot contents when `rects[i]` is undefined: both vectors zeroed. -/
def zeroSlot : SlotData := { rect := ⟨0, 0, 0, 0⟩, params := ⟨0, 0, 0, 0⟩ }

/-- The upload loop `for (let i = 0; i < 32; i++)`: exactly the 32 fixed
uniform slots are written; slot `i` receives `rects[i]` when it exists and
zeros otherwise. -/
def uploadSlots (dpr : ℚ) (rs : List GlassRect) : List SlotData :=
  (List.range 32).map (fun i =>
    match rs.get? i with
    | some r => slotOf dpr r
    | none => zeroSlot)

/-- `rectCount = Math.min(rects.length, 32)`, uploaded as `u_rectCount`. -/
def rectCount (rs : List GlassRect) : Nat := min rs.length 32

/-- The slots the fragment-shader main loop actually processes: indices
`i < u_rectCount` (the loop `break`s at `i >= u_rectCount`), skipping any
slot with `u_rectParams[i].z < 0.5`. -/
def drawnSlots (dpr : ℚ) (rs : List GlassRect) : List SlotData :=
  ((uploadSlots dpr rs).take (rectCount rs)).filter
    (fun s => decide (¬ s.params.z < (1/2 : ℚ)))

/-- A concrete region descriptor for instantiating the registry theorems. -/
def demoRect : GlassRect :=
  { id := "panel-a", x := 100, y := 100, width := 200, height := 150,
    roundness := 4/5, intensity := .normal }

/-- A concrete registry holding 33 distinct regions (used to exercise the
32-slot cap). -/
def demoRegistry33 : Registry :=
  (List.range 33).map (fun (i : ℕ) =>
    (toString i,
     { id := toString i, x := (i : ℚ), y := 0, width := 100, height := 50,
       roundness := 1/5, intensity := .normal }))

end Glacier

namespace Glacier

/-! # Theorems -/

/-! ## Registry lemmas -/

theorem lookupG_eq_none_iff (id : String) (s : Registry) :
    lookupG id s = none ↔ ∀ e ∈ s, e.1 ≠ id := by
  induction s with
  | nil => simp [lookupG]
  | cons e s ih =>
    by_cases h : e.1 = id <;> simp [lookupG, h, ih]

theorem unregisterGlass_of_absent (id : String) (s : Registry)
    (h : lookupG id s = none) : unregisterGlass id s = s := by
  have hall := (lookupG_eq_none_iff id s).mp h
  unfold unregisterGlass
  rw [List.filter_eq_self]
  intro e he
  simpa using hall e he

theorem lookupG_unregisterGlass (id : String) (s : Registry) :
    lookupG id (unregisterGlass id s) = none := by
  rw [lookupG_eq_none_iff]
  intro e he
  have := List.of_mem_filter he
  simpa using this

theorem updateGlass_of_absent (id : String) (p : GlassPatch) (s : Registry)
    (h : lookupG id s = none) : updateGlass id p s = s := by
  simp [updateGlass, h]

theorem lookupG_registerGlass (r : GlassRect) (s : Registry) :
    lookupG r.id (registerGlass r s) = some r := by
  by_cases hp : ∃ e ∈ s, e.1 = r.id
  · rw [registerGlass, if_pos hp]
    induction s with
    | nil => simp at hp
    | cons e s ih =>
      by_cases he : e.1 = r.id
      · simp [lookupG, he]
      · obtain ⟨e', he', hk⟩ := hp
        rcases List.mem_cons.mp he' with rfl | hmem
        · exact absurd hk he
        · simp only [List.map_cons, if_neg he]
          rw [lookupG, if_neg he]
          exact ih ⟨e', hmem, hk⟩
  · rw [registerGlass, if_neg hp]
    push_neg at hp
    induction s with
    | nil => simp [lookupG]
    | cons e s ih =>
      have hne : e.1 ≠ r.id := hp e (by simp)
      rw [List.cons_append, lookupG, if_neg hne]
      exact ih (fun e' he' => hp e' (by simp [he']))

theorem countP_key_eq_zero (id : String) (s : Registry)
    (h : ∀ e ∈ s, e.1 ≠ id) : s.countP (fun e => e.1 = id) = 0 := by
  rw [List.countP_eq_zero]
  intro e he
  simpa using h e he

theorem countP_registerGlass (r : GlassRect) (s : Registry) (h : keysNodup s) :
    (registerGlass r s).countP (fun e => e.1 = r.id) = 1 := by
  by_cases hp : ∃ e ∈ s, e.1 = r.id
  · rw [registerGlass, if_pos hp]
    induction s with
    | nil => simp at hp
    | cons e s ih =>
      have hnodup : e.1 ∉ regKeys s ∧ keysNodup s := by
        simpa [keysNodup, regKeys] using h
      by_cases he : e.1 = r.id
      · simp only [List.map_cons, if_pos he, List.countP_cons]
        have hz : (s.map (fun e => if e.1 = r.id then (r.id, r) else e)).countP
            (fun e => e.1 = r.id) = 0 := by
          rw [List.countP_eq_zero]
          intro x hx
          obtain ⟨y, hy, rfl⟩ := List.mem_map.mp hx
          have hky : y.1 ≠ r.id := by
            intro hk
            exact hnodup.1 (by simpa [regKeys, ← he ▸ hk] using List.mem_map_of_mem Prod.fst hy)
          simp [if_neg hky, hky]
        simp [hz]
      · obtain ⟨e', he', hk⟩ := hp
        rcases List.mem_cons.mp he' with rfl | hmem
        · exact absurd hk he
        · simp only [List.map_cons, if_neg he, List.countP_cons]
          rw [ih hnodup.2 ⟨e', hmem, hk⟩]
          simp [he]
  · rw [registerGlass, if_neg hp]
    push_neg at hp
    rw [List.countP_append, countP_key_eq_zero r.id s hp]
    simp

theorem regKeys_map_replace (r : GlassRect) (s : Registry) :
    regKeys (s.map (fun e => if e.1 = r.id then (r.id, r) else e)) = regKeys s := by
  induction s with
  | nil => rfl
  | cons e s ih =>
    by_cases he : e.1 = r.id
    · simp [regKeys, he] at ih ⊢
      exact ih
    · simp [regKeys, he] at ih ⊢
      exact ih

theorem keysNodup_registerGlass (r : GlassRect) (s : Registry) (h : keysNodup s) :
    keysNodup (registerGlass r s) := by
  by_cases hp : ∃ e ∈ s, e.1 = r.id
  · rw [registerGlass, if_pos hp]
    unfold keysNodup
    rw [regKeys_map_replace]
    exact h
  · rw [registerGlass, if_neg hp]
    push_neg at hp
    unfold keysNodup regKeys at h ⊢
    rw [List.map_append, List.nodup_append]
    refine ⟨h, by simp, ?_⟩
    intro k hk
    obtain ⟨e, he, rfl⟩ := List.mem_map.mp hk
    simp only [List.map_cons, List.map_nil, List.mem_singleton]
    exact fun hc => hp e he (by simpa using hc)

theorem mem_registerGlass_key (r : GlassRect) (s : Registry) :
    ∀ e ∈ registerGlass r s, e.1 = r.id → e = (r.id, r) := by
  intro e he hk
  by_cases hp : ∃ e ∈ s, e.1 = r.id
  · rw [registerGlass, if_pos hp] at he
    obtain ⟨e', _, rfl⟩ := List.mem_map.mp he
    by_cases he' : e'.1 = r.id
    · simp [he']
    · simp only [if_neg he'] at hk
      exact absurd hk he'
  · rw [registerGlass, if_neg hp] at he
    push_neg at hp
    rcases List.mem_append.mp he with hmem | hmem
    · exact absurd hk (hp e hmem)
    · simpa using hmem

theorem exists_key_registerGlass (r : GlassRect) (s : Registry) :
    ∃ e ∈ registerGlass r s, e.1 = r.id := by
  by_cases hp : ∃ e ∈ s, e.1 = r.id
  · rw [registerGlass, if_pos hp]
    obtain ⟨e, he, hk⟩ := hp
    exact ⟨(r.id, r), List.mem_map.mpr ⟨e, he, by simp [hk]⟩, rfl⟩
  · rw [registerGlass, if_neg hp]
    exact ⟨(r.id, r), by simp, rfl⟩

theorem registerGlass_idem (r : GlassRect) (s : Registry) :
    registerGlass r (registerGlass r s) = registerGlass r s := by
  have hp := exists_key_registerGlass r s
  rw [registerGlass, if_pos hp]
  conv_rhs => rw [← List.map_id (registerGlass r s)]
  apply List.map_congr_left
  intro e he
  by_cases hk : e.1 = r.id
  · rw [if_pos hk, mem_registerGlass_key r s e he hk, id_eq]
  · rw [if_neg hk, id_eq]

/-! ## Claim theorems: registry -/

/-- **C8**: calling `registerGlass` twice with the same id and rect yields
exactly one registry entry for that id, holding that rect; the second call
replaces in place (it is the identity on the already-updated registry), and
ids remain unique across the registry. -/
theorem register_twice_same_id (s : Registry) (r : GlassRect) (h : keysNodup s) :
    (registerGlass r (registerGlass r s)).countP (fun e => e.1 = r.id) = 1 ∧
    lookupG r.id (registerGlass r (registerGlass r s)) = some r ∧
    keysNodup (registerGlass r (registerGlass r s)) ∧
    registerGlass r (registerGlass r s) = registerGlass r s := by
  rw [registerGlass_idem]
  exact ⟨countP_registerGlass r s h, lookupG_registerGlass r s,
    keysNodup_registerGlass r s h, rfl⟩

/-- Witness for `register_twice_same_id` at the empty registry and a
concrete rect. -/
theorem register_twice_same_id_witness :
    keysNodup ([] : Registry) ∧
    ((registerGlass demoRect (registerGlass demoRect ([] : Registry))).countP
        (fun e => e.1 = demoRect.id) = 1 ∧
      lookupG demoRect.id
        (registerGlass demoRect (registerGlass demoRect ([] : Registry))) =
        some demoRect ∧
      keysNodup (registerGlass demoRect (registerGlass demoRect ([] : Registry))) ∧
      registerGlass demoRect (registerGlass demoRect ([] : Registry)) =
        registerGlass demoRect ([] : Registry)) := by
  have h : keysNodup ([] : Registry) := by simp [keysNodup, regKeys]
  exact ⟨h, register_twice_same_id [] demoRect h⟩

/-- **C9**: `updateGlass` and `unregisterGlass` on an id that is not in the
registry (including an id that was just unregistered) leave the registry
unchanged; both are total functions, so they return normally and cannot
throw. -/
theorem update_unregister_unknown_noop (s : Registry) (id : String)
    (p : GlassPatch) (h : lookupG id s = none) :
    updateGlass id p s = s ∧ unregisterGlass id s = s ∧
    (∀ t : Registry,
      lookupG id (unregisterGlass id t) = none ∧
      updateGlass id p (unregisterGlass id t) = unregisterGlass id t ∧
      unregisterGlass id (unregisterGlass id t) = unregisterGlass id t) :=
  ⟨updateGlass_of_absent id p s h, unregisterGlass_of_absent id s h,
   fun t => ⟨lookupG_unregisterGlass id t,
     updateGlass_of_absent id p _ (lookupG_unregisterGlass id t),
     unregisterGlass_of_absent id _ (lookupG_unregisterGlass id t)⟩⟩

/-- Witness for `update_unregister_unknown_noop`: a one-entry registry and
an id that is not registered. -/
theorem update_unregister_unknown_noop_witness :
    lookupG "ghost" [("panel-a", demoRect)] = none ∧
    (updateGlass "ghost" {} [("panel-a", demoRect)] = [("panel-a", demoRect)] ∧
      unregisterGlass "ghost" [("panel-a", demoRect)] = [("panel-a", demoRect)] ∧
      (∀ t : Registry,
        lookupG "ghost" (unregisterGlass "ghost" t) = none ∧
        updateGlass "ghost" {} (unregisterGlass "ghost" t) =
          unregisterGlass "ghost" t ∧
        unregisterGlass "ghost" (unregisterGlass "ghost" t) =
          unregisterGlass "ghost" t)) := by
  have h : lookupG "ghost" [("panel-a", demoRect)] = none := by
    simp [lookupG]
  exact ⟨h, update_unregister_unknown_noop [("panel-a", demoRect)] "ghost" {} h⟩

/-! ## Claim theorems: 32-slot cap -/

theorem uploadSlots_spec (dpr : ℚ) (rs : List GlassRect) (n : ℕ) :
    (List.range n).map (fun i =>
      match rs.get? i with
      | some r => slotOf dpr r
      | none => zeroSlot) =
    (rs.take n).map (slotOf dpr) ++ List.replicate (n - rs.length) zeroSlot := by
  induction rs generalizing n with
  | nil =>
    simp [List.map_const']
  | cons r rs ih =>
    cases n with
    | zero => simp
    | succ m =>
      rw [List.range_succ_eq_map]
      simp only [List.map_cons, List.map_map, Function.comp_def, List.get?_cons_succ,
        List.get?_cons_zero, List.take_succ_cons, Nat.succ_sub_succ]
      rw [ih m]
      simp

/-- **C5**: with more than 32 registered regions, the per-frame upload
writes exactly the 32 fixed uniform slots (never out of bounds), and the
fragment shader draws exactly the first 32 regions in registration (map
insertion) order; the excess regions are silently excluded. -/
theorem overflow_capped_at_32 (dpr : ℚ) (s : Registry)
    (h : 32 < (regValues s).length) :
    (uploadSlots dpr (regValues s)).length = 32 ∧
    rectCount (regValues s) = 32 ∧
    drawnSlots dpr (regValues s) = ((regValues s).take 32).map (slotOf dpr) ∧
    (drawnSlots dpr (regValues s)).length = 32 := by
  have hlen : 32 ≤ (regValues s).length := le_of_lt h
  have h1 : (uploadSlots dpr (regValues s)).length = 32 := by
    simp [uploadSlots]
  have h2 : rectCount (regValues s) = 32 := Nat.min_eq_right hlen
  have hup : uploadSlots dpr (regValues s) =
      ((regValues s).take 32).map (slotOf dpr) := by
    rw [uploadSlots, uploadSlots_spec, Nat.sub_eq_zero_of_le hlen]
    simp
  have htake : (((regValues s).take 32).map (slotOf dpr)).length = 32 := by
    simp [Nat.min_eq_left hlen]
  have h3 : drawnSlots dpr (regValues s) =
      ((regValues s).take 32).map (slotOf dpr) := by
    rw [drawnSlots, hup, h2, List.take_of_length_le (le_of_eq htake),
      List.filter_eq_self]
    intro sl hsl
    obtain ⟨r, _, rfl⟩ := List.mem_map.mp hsl
    norm_num [slotOf]
  exact ⟨h1, h2, h3, by rw [h3]; exact htake⟩

/-- Witness for `overflow_capped_at_32`: a registry with 33 regions. -/
theorem overflow_capped_at_32_witness :
    32 < (regValues demoRegistry33).length ∧
    ((uploadSlots 2 (regValues demoRegistry33)).length = 32 ∧
      rectCount (regValues demoRegistry33) = 32 ∧
      drawnSlots 2 (regValues demoRegistry33) =
        ((regValues demoRegistry33).take 32).map (slotOf 2) ∧
      (drawnSlots 2 (regValues demoRegistry33)).length = 32) := by
  have h : 32 < (regValues demoRegistry33).length := by
    simp only [regValues, demoRegistry33, List.length_map, List.length_range]
    norm_num
  exact ⟨h, overflow_capped_at_32 2 demoRegistry33 h⟩

/-! ## Claim theorems: compositing -/

theorem compositeStep_total_bounds (t : ℝ) (rgb : Vec3) (g : Vec4)
    (h0 : 0 ≤ t) (h1 : t ≤ 1) (ha0 : 0 ≤ g.w) (ha1 : g.w ≤ 1) :
    t ≤ (compositeStep (t, rgb) g).1 ∧ 0 ≤ (compositeStep (t, rgb) g).1 ∧
    (compositeStep (t, rgb) g).1 ≤ 1 := by
  simp only [compositeStep]
  refine ⟨?_, ?_, ?_⟩ <;> nlinarith

theorem foldl_compositeStep_total_bounds (gs : List Vec4) :
    ∀ (t : ℝ) (rgb : Vec3), 0 ≤ t → t ≤ 1 →
    (∀ g ∈ gs, 0 ≤ g.w ∧ g.w ≤ 1) →
    t ≤ (gs.foldl compositeStep (t, rgb)).1 ∧
    0 ≤ (gs.foldl compositeStep (t, rgb)).1 ∧
    (gs.foldl compositeStep (t, rgb)).1 ≤ 1 := by
  induction gs with
  | nil => intro t rgb h0 h1 _; exact ⟨le_refl t, h0, h1⟩
  | cons g gs ih =>
    intro t rgb h0 h1 hmem
    have hg := hmem g (by simp)
    have hstep := compositeStep_total_bounds t rgb g h0 h1 hg.1 hg.2
    have hrest := ih (compositeStep (t, rgb) g).1 (compositeStep (t, rgb) g).2
      hstep.2.1 hstep.2.2 (fun g' hg' => hmem g' (by simp [hg']))
    rw [List.foldl_cons]
    exact ⟨le_trans hstep.1 hrest.1, hrest.2.1, hrest.2.2⟩

/-- **C10**: in the fragment-shader main loop, if every region's glass
color has alpha in `[0,1]`, then the accumulated `totalAlpha` of the fold
`totalAlpha += alpha` with `alpha = a*(1 - totalAlpha)` stays in `[0,1]`
and is non-decreasing across iterations (every prefix of the region list
accumulates no more than the whole list), so the final fragment alpha is
in `[0,1]` however many regions overlap. -/
theorem totalAlpha_invariant (gs : List Vec4)
    (h : ∀ g ∈ gs, 0 ≤ g.w ∧ g.w ≤ 1) :
    0 ≤ (compositeList gs).1 ∧ (compositeList gs).1 ≤ 1 ∧
    (∀ pre suf, gs = pre ++ suf →
      (compositeList pre).1 ≤ (compositeList gs).1) := by
  have hall := foldl_compositeStep_total_bounds gs 0 ⟨0, 0, 0⟩ le_rfl zero_le_one h
  refine ⟨hall.2.1, hall.2.2, ?_⟩
  intro pre suf hsplit
  subst hsplit
  have hpre : ∀ g ∈ pre, 0 ≤ g.w ∧ g.w ≤ 1 :=
    fun g hg => h g (List.mem_append.mpr (Or.inl hg))
  have hprebounds := foldl_compositeStep_total_bounds pre 0 ⟨0, 0, 0⟩
    le_rfl zero_le_one hpre
  unfold compositeList
  rw [List.foldl_append]
  exact (foldl_compositeStep_total_bounds suf (compositeList pre).1
    (compositeList pre).2 hprebounds.2.1 hprebounds.2.2
    (fun g hg => h g (List.mem_append.mpr (Or.inr hg)))).1

/-- Witness for `totalAlpha_invariant`: two half-transparent regions. -/
theorem totalAlpha_invariant_witness :
    (∀ g ∈ [(⟨1, 0, 0, 1/2⟩ : Vec4), ⟨0, 1, 0, 1/2⟩], 0 ≤ g.w ∧ g.w ≤ 1) ∧
    (0 ≤ (compositeList [(⟨1, 0, 0, 1/2⟩ : Vec4), ⟨0, 1, 0, 1/2⟩]).1 ∧
      (compositeList [(⟨1, 0, 0, 1/2⟩ : Vec4), ⟨0, 1, 0, 1/2⟩]).1 ≤ 1 ∧
      (∀ pre suf,
        [(⟨1, 0, 0, 1/2⟩ : Vec4), ⟨0, 1, 0, 1/2⟩] = pre ++ suf →
        (compositeList pre).1 ≤
          (compositeList [(⟨1, 0, 0, 1/2⟩ : Vec4), ⟨0, 1, 0, 1/2⟩]).1)) := by
  have h : ∀ g ∈ [(⟨1, 0, 0, 1/2⟩ : Vec4), ⟨0, 1, 0, 1/2⟩], 0 ≤ g.w ∧ g.w ≤ 1 := by
    intro g hg
    rcases List.mem_cons.mp hg with rfl | hg
    · norm_num
    · rcases List.mem_cons.mp hg with rfl | hg
      · norm_num
      · simp at hg
  exact ⟨h, totalAlpha_invariant _ h⟩

/-- **C1, counterexample**: two overlapping enabled regions with equal
per-region alpha `1/2`; the earlier-registered region (pure red) receives
weight `1/2` while the later-registered one (pure green) receives only
`1/4`, so the later-registered region's color does *not* dominate in the
overlap. -/
theorem later_region_does_not_dominate :
    (compositeList [(⟨1, 0, 0, 1/2⟩ : Vec4), ⟨0, 1, 0, 1/2⟩]).2 =
      (⟨1/2, 1/4, 0⟩ : Vec3) ∧
    ¬ ((compositeList [(⟨1, 0, 0, 1/2⟩ : Vec4), ⟨0, 1, 0, 1/2⟩]).2.x <
        (compositeList [(⟨1, 0, 0, 1/2⟩ : Vec4), ⟨0, 1, 0, 1/2⟩]).2.y) := by
  norm_num [compositeList, compositeStep, v3add, v3scale, Vec4.rgb]

/-- **C1, amended**: for two enabled overlapping regions with equal
per-region alpha `a ∈ [0,1]`, the main loop composites
`result.rgb = a*c₁.rgb + a*(1-a)*c₂.rgb` in registration order, and the
*earlier*-registered region's color dominates: its weight `a` is at least
the later one's weight `a*(1-a)`, strictly so whenever `0 < a < 1`. -/
theorem earlier_region_dominates (c1 c2 : Vec4) (a : ℝ)
    (h1 : c1.w = a) (h2 : c2.w = a) (h0 : 0 ≤ a) (hle : a ≤ 1) :
    (compositeList [c1, c2]).2 =
      v3add (v3scale a c1.rgb) (v3scale (a * (1 - a)) c2.rgb) ∧
    a * (1 - a) ≤ a ∧
    (0 < a → a < 1 → a * (1 - a) < a) := by
  refine ⟨?_, by nlinarith, fun hpos hlt => by nlinarith⟩
  simp only [compositeList, List.foldl_cons, List.foldl_nil, compositeStep,
    v3add, v3scale, Vec4.rgb, h1, h2, Vec3.mk.injEq]
  refine ⟨by ring, by ring, by ring⟩

/-- Witness for `earlier_region_dominates` at `a = 1/2`. -/
theorem earlier_region_dominates_witness :
    ((⟨1, 0, 0, 1/2⟩ : Vec4).w = (1/2 : ℝ)) ∧
    ((⟨0, 1, 0, 1/2⟩ : Vec4).w = (1/2 : ℝ)) ∧
    (0 ≤ (1/2 : ℝ)) ∧ ((1/2 : ℝ) ≤ 1) ∧
    ((compositeList [(⟨1, 0, 0, 1/2⟩ : Vec4), ⟨0, 1, 0, 1/2⟩]).2 =
        v3add (v3scale (1/2) (⟨1, 0, 0, 1/2⟩ : Vec4).rgb)
          (v3scale ((1/2) * (1 - 1/2)) (⟨0, 1, 0, 1/2⟩ : Vec4).rgb) ∧
      (1/2 : ℝ) * (1 - 1/2) ≤ 1/2 ∧
      ((0 : ℝ) < 1/2 → (1/2 : ℝ) < 1 → (1/2 : ℝ) * (1 - 1/2) < 1/2)) := by
  refine ⟨rfl, rfl, by norm_num, by norm_num, ?_⟩
  exact earlier_region_dominates ⟨1, 0, 0, 1/2⟩ ⟨0, 1, 0, 1/2⟩ (1/2) rfl rfl
    (by norm_num) (by norm_num)

/-! ## Claim theorems: depth proxy -/

/-- **C2, counterexample**: a 100×100 region (half-extents 50) with the
default caller-supplied thickness 20, at an interior pixel with `sd = -20`:
the shader's normalized depth is `clamp(20 / (50*0.5)) = 0.8`, while the
claimed `clamp(-sd / referenceThickness) = clamp(20/20) = 1`. -/
theorem depth_ignores_thickness_counterexample :
    normalizedDepthGlobal (-20) ⟨50, 50⟩ = 4/5 ∧
    normalizedDepthSpec (-20) 20 = 1 ∧
    normalizedDepthGlobal (-20) ⟨50, 50⟩ ≠ normalizedDepthSpec (-20) 20 := by
  norm_num [normalizedDepthGlobal, normalizedDepthSpec, clampR, min_def, max_def]

/-- **C2, amended**: `LiquidGlass` computes the normalized depth exactly as
the spec's `clamp(-sd / referenceThickness, 0, 1)` with the caller-supplied
`u_refThickness`.  `GlobalGlassRenderer` ignores its caller-supplied
`u_thickness` uniform: for interior pixels (`sd ≤ 0`) the normalized depth
is `clamp(-sd / (min(halfSize.x, halfSize.y) * 0.5), 0, 1)` — 0 at the
boundary, and 1 once the interior distance reaches a quarter of the smaller
side. -/
theorem normalized_depth_formulas (sd t : ℝ) (size : Vec2)
    (hsd : sd ≤ 0) (hx : 0 < size.x) (hy : 0 < size.y) :
    normalizedDepthLiquid sd t = normalizedDepthSpec sd t ∧
    normalizedDepthGlobal sd size =
      clampR (-sd / (min size.x size.y * 0.5)) 0 1 ∧
    normalizedDepthGlobal 0 size = 0 ∧
    (min size.x size.y * 0.5 ≤ -sd → normalizedDepthGlobal sd size = 1) := by
  have hmin : 0 < min size.x size.y * 0.5 := by
    have : 0 < min size.x size.y := lt_min hx hy
    linarith
  refine ⟨rfl, ?_, ?_, ?_⟩
  · rw [normalizedDepthGlobal, max_eq_left (by linarith : (0:ℝ) ≤ -sd)]
  · rw [normalizedDepthGlobal]
    norm_num [clampR]
  · intro hdeep
    rw [normalizedDepthGlobal, max_eq_left (by linarith : (0:ℝ) ≤ -sd), clampR]
    have h1 : (1:ℝ) ≤ -sd / (min size.x size.y * 0.5) :=
      (one_le_div hmin).mpr hdeep
    rw [max_eq_left (by linarith : (0:ℝ) ≤ -sd / (min size.x size.y * 0.5)),
      min_eq_right h1]

/-- Witness for `normalized_depth_formulas`: `sd = -20`, thickness 20,
half-extents 50×50. -/
theorem normalized_depth_formulas_witness :
    ((-20 : ℝ) ≤ 0) ∧ ((0:ℝ) < (Vec2.mk 50 50).x) ∧ ((0:ℝ) < (Vec2.mk 50 50).y) ∧
    (normalizedDepthLiquid (-20) 20 = normalizedDepthSpec (-20) 20 ∧
      normalizedDepthGlobal (-20) ⟨50, 50⟩ =
        clampR (-(-20) / (min (Vec2.mk 50 50).x (Vec2.mk 50 50).y * 0.5)) 0 1 ∧
      normalizedDepthGlobal 0 ⟨50, 50⟩ = 0 ∧
      (min (Vec2.mk 50 50).x (Vec2.mk 50 50).y * 0.5 ≤ -(-20) →
        normalizedDepthGlobal (-20) ⟨50, 50⟩ = 1)) := by
  refine ⟨by norm_num, by norm_num, by norm_num, ?_⟩
  exact normalized_depth_formulas (-20) 20 ⟨50, 50⟩ (by norm_num) (by norm_num)
    (by norm_num)

/-! ## Claim theorems: Fresnel rim -/

/-- **C3, counterexample**: at the rim (`depth = 0`) with Fresnel strength 1
and intensity 1, the GlobalGlassRenderer rim term is `pow(1,3.5)*0.15 = 0.15`,
whereas the claimed Schlick form (with the code's `F0 = 0`) scaled by
strength 1 equals 1. -/
theorem fresnel_not_schlick_counterexample :
    fresnelIntensityGlobal 0 1 1 = 0.15 ∧
    fresnelSchlick 0 0 * 1 = 1 ∧
    fresnelIntensityGlobal 0 1 1 ≠ fresnelSchlick 0 0 * 1 := by
  norm_num [fresnelIntensityGlobal, fresnelSchlick, Real.one_rpow]

/-- **C3, amended**: in `LiquidGlass` the Fresnel term equals the Schlick
approximation with `F0 = 0` — `pow(1-depth, 5)` — scaled by the
caller-supplied strength, and blending it toward white never darkens a
channel that is ≤ 1 (brightens the rim); in `GlobalGlassRenderer` the rim
term instead uses exponent 3.5, `pow(1-depth, 3.5)*strength*intensity*0.15`,
and is added to the color (it is nonnegative, so it also brightens). -/
theorem fresnel_terms (d s i c : ℝ) (hd0 : 0 ≤ d) (hd1 : d ≤ 1)
    (hs : 0 ≤ s) (hi : 0 ≤ i) (hc : c ≤ 1) :
    fresnelFactorLiquid d s = fresnelSchlick 0 d * s ∧
    c ≤ fresnelMixChannel c (fresnelFactorLiquid d s) ∧
    0 ≤ fresnelIntensityGlobal d s i := by
  have hbase : (0:ℝ) ≤ 1 - d := by linarith
  refine ⟨?_, ?_, ?_⟩
  · rw [fresnelFactorLiquid, fresnelSchlick,
      show (5.0 : ℝ) = ((5 : ℕ) : ℝ) by norm_num, Real.rpow_natCast]
    ring
  · have hf : 0 ≤ fresnelFactorLiquid d s := by
      rw [fresnelFactorLiquid]
      exact mul_nonneg (Real.rpow_nonneg hbase _) hs
    rw [fresnelMixChannel, mixR]
    nlinarith
  · rw [fresnelIntensityGlobal]
    have := Real.rpow_nonneg hbase (3.5 : ℝ)
    positivity

/-! ## Edge anti-aliasing and outside pass-through -/

theorem renderGlass_far_eq_zero (u : Uniforms) (tex : Vec2 → Vec4)
    (pixelPos : Vec2) (rect params : Vec4) (rectIdx : ℝ) (bgColor : Vec4)
    (h : 2 < regionSd u pixelPos rect params rectIdx) :
    renderGlass u tex pixelPos rect params rectIdx bgColor = ⟨0, 0, 0, 0⟩ := by
  rw [renderGlass, if_pos h]

theorem renderGlass_alpha_eq_aa (u : Uniforms) (tex : Vec2 → Vec4)
    (pixelPos : Vec2) (rect params : Vec4) (rectIdx : ℝ) (bgColor : Vec4)
    (h : regionSd u pixelPos rect params rectIdx ≤ 2) :
    (renderGlass u tex pixelPos rect params rectIdx bgColor).w =
      aaAlpha (regionSd u pixelPos rect params rectIdx) := by
  rw [renderGlass, if_neg (not_lt.mpr h)]

theorem foldl_compositeStep_of_zero (gs : List Vec4)
    (h : ∀ g ∈ gs, g = (⟨0, 0, 0, 0⟩ : Vec4)) :
    ∀ acc : ℝ × Vec3, gs.foldl compositeStep acc = acc := by
  induction gs with
  | nil => intro acc; rfl
  | cons g gs ih =>
    intro acc
    have hg := h g (by simp)
    rw [List.foldl_cons, hg]
    have hstep : compositeStep acc ⟨0, 0, 0, 0⟩ = acc := by
      simp [compositeStep, v3add, v3scale, Vec4.rgb]
    rw [hstep]
    exact ih (fun g' hg' => h g' (by simp [hg'])) acc

theorem clampR_le_clampR (a b lo hi : ℝ) (h : a ≤ b) :
    clampR a lo hi ≤ clampR b lo hi :=
  min_le_min (max_le_max h le_rfl) le_rfl

theorem clampR_mem_01 (a : ℝ) : 0 ≤ clampR a 0 1 ∧ clampR a 0 1 ≤ 1 :=
  ⟨le_min (le_max_right a 0) zero_le_one, min_le_right _ 1⟩

/-- `smoothstep` with a descending edge pair is antitone. -/
theorem smoothstepR_antitone (e0 e1 x1 x2 : ℝ) (he : e1 < e0) (hx : x1 ≤ x2) :
    smoothstepR e0 e1 x2 ≤ smoothstepR e0 e1 x1 := by
  have hneg : e1 - e0 < 0 := by linarith
  have hinv : (e1 - e0)⁻¹ ≤ 0 := le_of_lt (inv_lt_zero.mpr hneg)
  have hdiv : (x2 - e0) / (e1 - e0) ≤ (x1 - e0) / (e1 - e0) := by
    rw [div_eq_mul_inv, div_eq_mul_inv]
    exact mul_le_mul_of_nonpos_right (by linarith) hinv
  have hcl := clampR_le_clampR _ _ 0 1 hdiv
  have hb2 := clampR_mem_01 ((x2 - e0) / (e1 - e0))
  have hb1 := clampR_mem_01 ((x1 - e0) / (e1 - e0))
  rw [smoothstepR, smoothstepR]
  set t1 := clampR ((x1 - e0) / (e1 - e0)) 0 1 with ht1
  set t2 := clampR ((x2 - e0) / (e1 - e0)) 0 1 with ht2
  nlinarith [mul_nonneg hb2.1 hb2.1, mul_nonneg hb1.1 hb1.1,
    mul_nonneg (mul_nonneg hb2.1 hb2.1) (sub_nonneg.mpr hcl),
    mul_nonneg (sub_nonneg.mpr hcl) (sub_nonneg.mpr hb1.2),
    mul_nonneg (sub_nonneg.mpr hcl) (sub_nonneg.mpr hb2.2)]

/-- **C6**: at a pixel beyond the anti-aliasing band of every processed
region (`sd > 2`, the shader's early-out), the fragment is `vec4(0)` and
the `ONE, ONE_MINUS_SRC_ALPHA` canvas blend leaves the backdrop exactly
unchanged; moreover the edge alpha `aa = smoothstep(1.5, -1.0, sd)` is a
monotone (antitone in `sd`) ramp, not a hard step, and it is exactly the
alpha `renderGlass` reports whenever `sd ≤ 2`. -/
theorem outside_backdrop_passthrough (u : Uniforms) (tex : Vec2 → Vec4)
    (slots : List (Vec4 × Vec4)) (pixelPos : Vec2) (bgColor : Vec4)
    (backdrop : Vec3)
    (h : ∀ ie ∈ slots.enum, 2 < regionSd u pixelPos ie.2.1 ie.2.2 (ie.1 : ℝ)) :
    mainFragment u tex slots pixelPos bgColor = ⟨0, 0, 0, 0⟩ ∧
    blendPresented (mainFragment u tex slots pixelPos bgColor) backdrop = backdrop ∧
    (∀ s1 s2 : ℝ, s1 ≤ s2 → aaAlpha s2 ≤ aaAlpha s1) ∧
    (∀ (rect params : Vec4) (rectIdx : ℝ) (bg2 : Vec4),
      regionSd u pixelPos rect params rectIdx ≤ 2 →
      (renderGlass u tex pixelPos rect params rectIdx bg2).w =
        aaAlpha (regionSd u pixelPos rect params rectIdx)) := by
  have hcols : ∀ g ∈ shaderRegionColors u tex slots pixelPos bgColor,
      g = (⟨0, 0, 0, 0⟩ : Vec4) := by
    intro g hg
    obtain ⟨ie, hie, hsome⟩ := List.mem_filterMap.mp hg
    by_cases hz : ie.2.2.z < 0.5
    · simp [hz] at hsome
    · simp only [hz, if_false, Option.some.injEq] at hsome
      rw [← hsome]
      exact renderGlass_far_eq_zero u tex pixelPos ie.2.1 ie.2.2 (ie.1 : ℝ)
        bgColor (h ie hie)
  have hzero : mainFragment u tex slots pixelPos bgColor = ⟨0, 0, 0, 0⟩ := by
    rw [mainFragment, compositeList,
      foldl_compositeStep_of_zero _ hcols (0, ⟨0, 0, 0⟩)]
  refine ⟨hzero, ?_, fun s1 s2 hs => smoothstepR_antitone 1.5 (-1) s1 s2 (by norm_num) hs,
    fun rect params rectIdx bg2 hsd =>
      renderGlass_alpha_eq_aa u tex pixelPos rect params rectIdx bg2 hsd⟩
  rw [hzero, blendPresented]
  simp [v3add, v3scale, Vec4.rgb]

theorem sdRoundedRect_wobble_zero (time : ℝ) (p size : Vec2)
    (radius rectIdx : ℝ) :
    sdRoundedRect time p size radius 0 rectIdx =
      sdRoundedRectPure p size radius := by
  simp [sdRoundedRect, sdRoundedRectPure]

theorem demo_regionSd_far :
    regionSd demoUniforms0 ⟨1000, 5⟩ ⟨0, 0, 10, 10⟩ ⟨0, 1, 1, 0⟩ 0 = 990 := by
  have harg : regionSd demoUniforms0 ⟨1000, 5⟩ ⟨0, 0, 10, 10⟩ ⟨0, 1, 1, 0⟩ 0 =
      sdRoundedRect 0 ⟨995, 0⟩ ⟨5, 5⟩ 0 0 0 := by
    rw [regionSd]
    norm_num [demoUniforms0, v2sub]
  rw [harg, sdRoundedRect_wobble_zero, sdRoundedRectPure, v2length]
  rw [show |(Vec2.mk 995 0).x| = 995 from abs_of_pos (by norm_num),
      show |(Vec2.mk 995 0).y| = 0 from abs_zero]
  norm_num [max_def, min_def]
  rw [show (980100 : ℝ) = 990 ^ 2 by norm_num,
      Real.sqrt_sq (by norm_num : (0:ℝ) ≤ 990)]

/-- Witness for `outside_backdrop_passthrough`: one enabled 10×10 region at
the origin, evaluated at the distant pixel `(1000, 5)` with zero wobble
(`sd = 990 > 2`). -/
theorem outside_backdrop_passthrough_witness :
    (∀ ie ∈ demoSlots.enum,
      2 < regionSd demoUniforms0 ⟨1000, 5⟩ ie.2.1 ie.2.2 (ie.1 : ℝ)) ∧
    (mainFragment demoUniforms0 demoTex demoSlots ⟨1000, 5⟩ ⟨0.2, 0.4, 0.6, 1⟩ =
        ⟨0, 0, 0, 0⟩ ∧
      blendPresented
        (mainFragment demoUniforms0 demoTex demoSlots ⟨1000, 5⟩
          ⟨0.2, 0.4, 0.6, 1⟩) ⟨0.2, 0.4, 0.6⟩ = ⟨0.2, 0.4, 0.6⟩ ∧
      (∀ s1 s2 : ℝ, s1 ≤ s2 → aaAlpha s2 ≤ aaAlpha s1) ∧
      (∀ (rect params : Vec4) (rectIdx : ℝ) (bg2 : Vec4),
        regionSd demoUniforms0 ⟨1000, 5⟩ rect params rectIdx ≤ 2 →
        (renderGlass demoUniforms0 demoTex ⟨1000, 5⟩ rect params rectIdx bg2).w =
          aaAlpha (regionSd demoUniforms0 ⟨1000, 5⟩ rect params rectIdx))) := by
  have hsd : ∀ ie ∈ demoSlots.enum,
      2 < regionSd demoUniforms0 ⟨1000, 5⟩ ie.2.1 ie.2.2 (ie.1 : ℝ) := by
    intro ie hie
    simp only [demoSlots, List.enum, List.enumFrom, List.mem_singleton] at hie
    subst hie
    rw [show ((0 : ℕ) : ℝ) = 0 from Nat.cast_zero, demo_regionSd_far]
    norm_num
  exact ⟨hsd, outside_backdrop_passthrough demoUniforms0 demoTex demoSlots
    ⟨1000, 5⟩ ⟨0.2, 0.4, 0.6, 1⟩ ⟨0.2, 0.4, 0.6⟩ hsd⟩

/-! ## Shape sign invariant -/

theorem clamp_dist_1d (x a : ℝ) (ha : 0 ≤ a) :
    |clampR x (-a) a| ≤ a ∧
    (x - clampR x (-a) a) ^ 2 = max (|x| - a) 0 ^ 2 := by
  rw [clampR]
  rcases le_or_lt x (-a) with h1 | h1
  · rw [max_eq_right h1, min_eq_left (by linarith)]
    refine ⟨by rw [abs_neg, abs_of_nonneg ha], ?_⟩
    have hx : |x| = -x := abs_of_nonpos (by linarith)
    rw [hx, max_eq_left (by linarith)]
    ring
  · rcases le_or_lt x a with h2 | h2
    · rw [max_eq_left (by linarith), min_eq_left h2]
      refine ⟨abs_le.mpr ⟨by linarith, h2⟩, ?_⟩
      have hle : |x| ≤ a := abs_le.mpr ⟨by linarith, h2⟩
      rw [max_eq_right (by linarith)]
      ring
    · rw [max_eq_left (by linarith), min_eq_right (le_of_lt h2)]
      refine ⟨by rw [abs_of_nonneg ha], ?_⟩
      have hx : |x| = x := abs_of_pos (by linarith)
      rw [hx, max_eq_left (by linarith)]

theorem dist_box_lower (px py a b qx qy : ℝ) (ha : |qx| ≤ a) (hb : |qy| ≤ b) :
    Real.sqrt (max (|px| - a) 0 ^ 2 + max (|py| - b) 0 ^ 2) ≤
      Real.sqrt ((px - qx) ^ 2 + (py - qy) ^ 2) := by
  apply Real.sqrt_le_sqrt
  have h1 : max (|px| - a) 0 ≤ |px - qx| :=
    max_le (by linarith [abs_sub_abs_le_abs_sub px qx]) (abs_nonneg _)
  have h2 : max (|py| - b) 0 ≤ |py - qy| :=
    max_le (by linarith [abs_sub_abs_le_abs_sub py qy]) (abs_nonneg _)
  have h1' : max (|px| - a) 0 ^ 2 ≤ (px - qx) ^ 2 := by
    rw [← sq_abs (px - qx)]
    exact pow_le_pow_left₀ (le_max_right _ _) h1 2
  have h2' : max (|py| - b) 0 ^ 2 ≤ (py - qy) ^ 2 := by
    rw [← sq_abs (py - qy)]
    exact pow_le_pow_left₀ (le_max_right _ _) h2 2
  linarith

theorem roundedRect_sign_core (px py a b r : ℝ) (hr : 0 < r)
    (ha : 0 ≤ a) (hb : 0 ≤ b) :
    (min (max (|px| - a) (|py| - b)) 0
        + Real.sqrt (max (|px| - a) 0 ^ 2 + max (|py| - b) 0 ^ 2) - r < 0
      ↔ ∃ qx qy : ℝ, |qx| ≤ a ∧ |qy| ≤ b ∧
          Real.sqrt ((px - qx) ^ 2 + (py - qy) ^ 2) < r) ∧
    (0 < min (max (|px| - a) (|py| - b)) 0
        + Real.sqrt (max (|px| - a) 0 ^ 2 + max (|py| - b) 0 ^ 2) - r
      ↔ ∀ qx qy : ℝ, |qx| ≤ a → |qy| ≤ b →
          r < Real.sqrt ((px - qx) ^ 2 + (py - qy) ^ 2)) := by
  set D := Real.sqrt (max (|px| - a) 0 ^ 2 + max (|py| - b) 0 ^ 2) with hD
  have hDle : ∀ qx qy : ℝ, |qx| ≤ a → |qy| ≤ b →
      D ≤ Real.sqrt ((px - qx) ^ 2 + (py - qy) ^ 2) :=
    fun qx qy h1 h2 => dist_box_lower px py a b qx qy h1 h2
  have hDatt : ∃ qx qy : ℝ, |qx| ≤ a ∧ |qy| ≤ b ∧
      Real.sqrt ((px - qx) ^ 2 + (py - qy) ^ 2) = D := by
    obtain ⟨h1, h2⟩ := clamp_dist_1d px a ha
    obtain ⟨h3, h4⟩ := clamp_dist_1d py b hb
    exact ⟨clampR px (-a) a, clampR py (-b) b, h1, h3, by rw [hD, h2, h4]⟩
  have hInside : (∃ qx qy : ℝ, |qx| ≤ a ∧ |qy| ≤ b ∧
      Real.sqrt ((px - qx) ^ 2 + (py - qy) ^ 2) < r) ↔ D < r := by
    constructor
    · rintro ⟨qx, qy, h1, h2, h3⟩
      exact lt_of_le_of_lt (hDle qx qy h1 h2) h3
    · intro h
      obtain ⟨qx, qy, h1, h2, h3⟩ := hDatt
      exact ⟨qx, qy, h1, h2, h3 ▸ h⟩
  have hOutside : (∀ qx qy : ℝ, |qx| ≤ a → |qy| ≤ b →
      r < Real.sqrt ((px - qx) ^ 2 + (py - qy) ^ 2)) ↔ r < D := by
    constructor
    · intro h
      obtain ⟨qx, qy, h1, h2, h3⟩ := hDatt
      exact h3 ▸ h qx qy h1 h2
    · intro h qx qy h1 h2
      exact lt_of_lt_of_le h (hDle qx qy h1 h2)
  rcases le_or_lt (max (|px| - a) (|py| - b)) 0 with hm | hm
  · have hqx : |px| - a ≤ 0 := le_trans (le_max_left _ _) hm
    have hqy : |py| - b ≤ 0 := le_trans (le_max_right _ _) hm
    have hD0 : D = 0 := by
      rw [hD, max_eq_right hqx, max_eq_right hqy]
      norm_num
    rw [min_eq_left hm, hD0]
    constructor
    · exact iff_of_true (by linarith)
        (hInside.mpr (by rw [hD0]; exact hr))
    · refine iff_of_false (by linarith) ?_
      intro hout
      have := hOutside.mp hout
      rw [hD0] at this
      linarith
  · have hmin : min (max (|px| - a) (|py| - b)) 0 = 0 :=
      min_eq_right (le_of_lt hm)
    rw [hmin]
    constructor
    · exact ⟨fun h => hInside.mpr (by linarith),
        fun h => by have := hInside.mp h; linarith⟩
    · exact ⟨fun h => hOutside.mpr (by linarith),
        fun h => by have := hOutside.mp h; linarith⟩

theorem sdRoundedRectPure_sign (p size : Vec2) (radius : ℝ) (hr : 0 < radius)
    (hrx : radius ≤ size.x) (hry : radius ≤ size.y) :
    (sdRoundedRectPure p size radius < 0 ↔ insideRoundedRect p size radius) ∧
    (0 < sdRoundedRectPure p size radius ↔ outsideRoundedRect p size radius) := by
  have hcore := roundedRect_sign_core p.x p.y (size.x - radius)
    (size.y - radius) radius hr (by linarith) (by linarith)
  have he1 : |p.x| - (size.x - radius) = |p.x| - size.x + radius := by ring
  have he2 : |p.y| - (size.y - radius) = |p.y| - size.y + radius := by ring
  rw [he1, he2] at hcore
  have hsd : sdRoundedRectPure p size radius =
      min (max (|p.x| - size.x + radius) (|p.y| - size.y + radius)) 0
      + Real.sqrt (max (|p.x| - size.x + radius) 0 ^ 2
        + max (|p.y| - size.y + radius) 0 ^ 2) - radius := by
    rw [sdRoundedRectPure, v2length]
  rw [insideRoundedRect, outsideRoundedRect, hsd]
  exact hcore

theorem sdRoundedRectPure_sign_zero (p size : Vec2) :
    (sdRoundedRectPure p size 0 < 0 ↔ |p.x| < size.x ∧ |p.y| < size.y) ∧
    (0 < sdRoundedRectPure p size 0 ↔ size.x < |p.x| ∨ size.y < |p.y|) := by
  have hsd : sdRoundedRectPure p size 0 =
      min (max (|p.x| - size.x) (|p.y| - size.y)) 0
      + Real.sqrt (max (|p.x| - size.x) 0 ^ 2 + max (|p.y| - size.y) 0 ^ 2) := by
    rw [sdRoundedRectPure, v2length]
    norm_num
  rw [hsd]
  rcases le_or_lt (max (|p.x| - size.x) (|p.y| - size.y)) 0 with hm | hm
  · have hqx : |p.x| - size.x ≤ 0 := le_trans (le_max_left _ _) hm
    have hqy : |p.y| - size.y ≤ 0 := le_trans (le_max_right _ _) hm
    have hD0 : Real.sqrt (max (|p.x| - size.x) 0 ^ 2
        + max (|p.y| - size.y) 0 ^ 2) = 0 := by
      rw [max_eq_right hqx, max_eq_right hqy]
      norm_num
    rw [hD0, add_zero, min_eq_left hm]
    constructor
    · constructor
      · intro h
        have h1 : |p.x| - size.x < 0 := lt_of_le_of_lt (le_max_left _ _) h
        have h2 : |p.y| - size.y < 0 := lt_of_le_of_lt (le_max_right _ _) h
        exact ⟨by linarith, by linarith⟩
      · rintro ⟨h1, h2⟩
        exact max_lt (by linarith) (by linarith)
    · constructor
      · intro h
        exact absurd h (not_lt.mpr hm)
      · rintro (h | h) <;> [exact absurd hqx (by simp; linarith);
          exact absurd hqy (by simp; linarith)]
  · have hmin : min (max (|p.x| - size.x) (|p.y| - size.y)) 0 = 0 :=
      min_eq_right (le_of_lt hm)
    rw [hmin, zero_add]
    have hDpos : 0 < Real.sqrt (max (|p.x| - size.x) 0 ^ 2
        + max (|p.y| - size.y) 0 ^ 2) := by
      apply Real.sqrt_pos.mpr
      rcases lt_max_iff.mp hm with h | h
      · have hx' : 0 < max (|p.x| - size.x) 0 := lt_max_of_lt_left h
        nlinarith [sq_nonneg (max (|p.y| - size.y) 0)]
      · have hy' : 0 < max (|p.y| - size.y) 0 := lt_max_of_lt_left h
        nlinarith [sq_nonneg (max (|p.x| - size.x) 0)]
    constructor
    · constructor
      · intro h
        exact absurd h (not_lt.mpr (le_of_lt hDpos))
      · rintro ⟨h1, h2⟩
        have : max (|p.x| - size.x) (|p.y| - size.y) < 0 :=
          max_lt (by linarith) (by linarith)
        linarith
    · constructor
      · intro _
        rcases lt_max_iff.mp hm with h | h
        · exact Or.inl (by linarith)
        · exact Or.inr (by linarith)
      · intro _
        exact hDpos

theorem sdSuperellipse_sign (p size : Vec2) (n : ℝ)
    (hx : 0 < size.x) (hy : 0 < size.y) (hn : 0 < n) :
    (sdSuperellipse p size n < 0 ↔ insideSuperellipse p size n) ∧
    (0 < sdSuperellipse p size n ↔ outsideSuperellipse p size n) := by
  have hmin : 0 < min size.x size.y := lt_min hx hy
  have hinv : 0 < 1 / n := by positivity
  rw [sdSuperellipse, insideSuperellipse, outsideSuperellipse]
  set gm := |p.x / size.x| ^ n + |p.y / size.y| ^ n with hgmdef
  have hgm : 0 ≤ gm := by
    rw [hgmdef]
    exact add_nonneg (Real.rpow_nonneg (abs_nonneg _) n)
      (Real.rpow_nonneg (abs_nonneg _) n)
  have hlt : gm ^ (1 / n) < 1 ↔ gm < 1 := by
    constructor
    · intro h
      by_contra h'
      push_neg at h'
      have hge : (1:ℝ) ≤ gm ^ (1 / n) := by
        calc (1:ℝ) = 1 ^ (1 / n) := (Real.one_rpow _).symm
        _ ≤ gm ^ (1 / n) := Real.rpow_le_rpow zero_le_one h' (le_of_lt hinv)
      linarith
    · intro h
      exact Real.rpow_lt_one hgm h hinv
  have hgt : 1 < gm ^ (1 / n) ↔ 1 < gm := by
    constructor
    · intro h
      by_contra h'
      push_neg at h'
      have hle : gm ^ (1 / n) ≤ 1 := by
        calc gm ^ (1 / n) ≤ 1 ^ (1 / n) := Real.rpow_le_rpow hgm h' (le_of_lt hinv)
        _ = 1 := Real.one_rpow _
      linarith
    · intro h
      calc (1:ℝ) = 1 ^ (1 / n) := (Real.one_rpow _).symm
      _ < gm ^ (1 / n) := Real.rpow_lt_rpow zero_le_one h hinv
  constructor
  · constructor
    · intro h
      have hfac : gm ^ (1 / n) - 1 < 0 := by
        by_contra hge
        push_neg at hge
        nlinarith
      exact hlt.mp (by linarith)
    · intro h
      exact mul_neg_of_neg_of_pos (by linarith [hlt.mpr h]) hmin
  · constructor
    · intro h
      have hfac : 0 < gm ^ (1 / n) - 1 := by
        by_contra hge
        push_neg at hge
        nlinarith
      exact hgt.mp (by linarith)
    · intro h
      exact mul_pos (by linarith [hgt.mpr h]) hmin

/-- **C4**: for the wobble-free SDFs, the sign of the signed distance
matches geometric membership: `sdRoundedRect` with `wobble = 0` is negative
exactly at points geometrically inside the rounded rectangle (Minkowski sum
of the core box with a disc of the corner radius; for corner radius 0, the
plain open rectangle) and positive exactly outside it, and `sdSuperellipse`
with exponent `n ≥ 2` is negative exactly inside the superellipse
`|x/a|^n + |y/b|^n < 1` and positive exactly outside it. -/
theorem sdf_sign_invariant (time rectIdx : ℝ) (p size : Vec2) (radius n : ℝ)
    (hr0 : 0 ≤ radius) (hrx : radius ≤ size.x) (hry : radius ≤ size.y)
    (hx : 0 < size.x) (hy : 0 < size.y) (hn : 2 ≤ n) :
    (0 < radius →
      (sdRoundedRect time p size radius 0 rectIdx < 0 ↔
        insideRoundedRect p size radius) ∧
      (0 < sdRoundedRect time p size radius 0 rectIdx ↔
        outsideRoundedRect p size radius)) ∧
    (radius = 0 →
      (sdRoundedRect time p size radius 0 rectIdx < 0 ↔
        |p.x| < size.x ∧ |p.y| < size.y) ∧
      (0 < sdRoundedRect time p size radius 0 rectIdx ↔
        size.x < |p.x| ∨ size.y < |p.y|)) ∧
    (sdSuperellipse p size n < 0 ↔ insideSuperellipse p size n) ∧
    (0 < sdSuperellipse p size n ↔ outsideSuperellipse p size n) := by
  rw [sdRoundedRect_wobble_zero]
  obtain ⟨hse1, hse2⟩ := sdSuperellipse_sign p size n hx hy (by linarith)
  refine ⟨fun hr => sdRoundedRectPure_sign p size radius hr hrx hry,
    fun hz => ?_, hse1, hse2⟩
  subst hz
  exact sdRoundedRectPure_sign_zero p size

/-- Witness for `sdf_sign_invariant`: the center of a 4×2 half-extent
`(2,1)` shape with corner radius `1/2` and exponent `n = 2`. -/
theorem sdf_sign_invariant_witness :
    ((0:ℝ) ≤ 1/2) ∧ ((1/2 : ℝ) ≤ (Vec2.mk 2 1).x) ∧ ((1/2 : ℝ) ≤ (Vec2.mk 2 1).y) ∧
    ((0:ℝ) < (Vec2.mk 2 1).x) ∧ ((0:ℝ) < (Vec2.mk 2 1).y) ∧ ((2:ℝ) ≤ 2) ∧
    (((0:ℝ) < 1/2 →
      (sdRoundedRect 0 ⟨0, 0⟩ ⟨2, 1⟩ (1/2) 0 0 < 0 ↔
        insideRoundedRect ⟨0, 0⟩ ⟨2, 1⟩ (1/2)) ∧
      (0 < sdRoundedRect 0 ⟨0, 0⟩ ⟨2, 1⟩ (1/2) 0 0 ↔
        outsideRoundedRect ⟨0, 0⟩ ⟨2, 1⟩ (1/2))) ∧
    ((1/2 : ℝ) = 0 →
      (sdRoundedRect 0 ⟨0, 0⟩ ⟨2, 1⟩ (1/2) 0 0 < 0 ↔
        |(Vec2.mk 0 0).x| < (Vec2.mk 2 1).x ∧ |(Vec2.mk 0 0).y| < (Vec2.mk 2 1).y) ∧
      (0 < sdRoundedRect 0 ⟨0, 0⟩ ⟨2, 1⟩ (1/2) 0 0 ↔
        (Vec2.mk 2 1).x < |(Vec2.mk 0 0).x| ∨ (Vec2.mk 2 1).y < |(Vec2.mk 0 0).y|)) ∧
    (sdSuperellipse ⟨0, 0⟩ ⟨2, 1⟩ 2 < 0 ↔ insideSuperellipse ⟨0, 0⟩ ⟨2, 1⟩ 2) ∧
    (0 < sdSuperellipse ⟨0, 0⟩ ⟨2, 1⟩ 2 ↔ outsideSuperellipse ⟨0, 0⟩ ⟨2, 1⟩ 2)) := by
  refine ⟨by norm_num, by norm_num, by norm_num, by norm_num, by norm_num,
    le_refl 2, ?_⟩
  exact sdf_sign_invariant 0 0 ⟨0, 0⟩ ⟨2, 1⟩ (1/2) 2 (by norm_num) (by norm_num)
    (by norm_num) (by norm_num) (by norm_num) (le_refl 2)

/-! ## Determinism of the per-pixel optics evaluation -/

/-- **C7**: the per-pixel optics evaluation is a pure function of its
inputs — identical (pixel position, region geometry, optical parameters,
elapsed time, background sampler) always produce identical output — and
the noise terms `hash`, `noise` and `fbm` are deterministic functions of
their position argument alone (time enters only through the arguments the
callers build from it). -/
theorem optics_deterministic (i j : RenderInput) (h : i = j) :
    renderGlassAt i = renderGlassAt j ∧
    (∀ p q : Vec2, p = q → hash p = hash q ∧ noise p = noise q ∧ fbm p = fbm q) := by
  subst h
  exact ⟨rfl, fun p q hpq => by rw [hpq]; exact ⟨rfl, rfl, rfl⟩⟩

/-- Witness for `optics_deterministic` at a concrete render input. -/
theorem optics_deterministic_witness :
    demoInput = demoInput ∧
    (renderGlassAt demoInput = renderGlassAt demoInput ∧
      (∀ p q : Vec2, p = q →
        hash p = hash q ∧ noise p = noise q ∧ fbm p = fbm q)) :=
  ⟨rfl, optics_deterministic demoInput demoInput rfl⟩

end Glacier

namespace Glacier

/-- Witness for `fresnel_terms` at `depth = 1/2`, strength `1/2`,
intensity 1, channel value 0. -/
theorem fresnel_terms_witness :
    ((0:ℝ) ≤ 1/2) ∧ ((1/2 : ℝ) ≤ 1) ∧ ((0:ℝ) ≤ 1/2) ∧ ((0:ℝ) ≤ 1) ∧
    ((0:ℝ) ≤ 1) ∧
    (fresnelFactorLiquid (1/2) (1/2) = fresnelSchlick 0 (1/2) * (1/2) ∧
      (0:ℝ) ≤ fresnelMixChannel 0 (fresnelFactorLiquid (1/2) (1/2)) ∧
      0 ≤ fresnelIntensityGlobal (1/2) (1/2) 1) := by
  refine ⟨by norm_num, by norm_num, by norm_num, by norm_num, by norm_num, ?_⟩
  exact fresnel_terms (1/2) (1/2) 1 0 (by norm_num) (by norm_num) (by norm_num)
    (by norm_num) (by norm_num)

end Glacier
